import Mathlib

/-!
Verification of the schema-driven config parser and diagnostic engine of the
`vscode-ghostty-config-syntax` extension, shallowly embedded in Lean 4.

The embedding covers:
* the schema model and `isRepeatableKey` / `loadSchema` / `loadSchemaFromPath`
  (from `src/schema/loader.ts`),
* the diagnostic engine `validateLine` / `validateDuplicates` /
  `updateDiagnostics` (from the diagnostic provider source file),
* the line parser `parseDocument`, modelled from the spec (its source file is
  not part of the snapshot).

Strings are Lean `String`s; character offsets count characters.  The ambient
editor configuration (`enableDiagnostics`, `showPlatformHints`,
`diagnosticSeverity`) and the host process platform (`process.platform`) are
passed explicitly in a `Config` record.  The external value validator
(`validateValue`, whose source file is not in the snapshot) is passed as an
explicit function argument, so theorems quantify over all validators.
-/

/-- vscode.DiagnosticSeverity. -/
inductive Severity where
  | error
  | warning
  | information
  | hint
deriving DecidableEq, Repr

/-- A half-open character-offset span `[start, stop)` within one line. -/
structure Span where
  start : Nat
  stop : Nat
deriving DecidableEq, Repr

/-- One reported problem: a line number, a span within that line, a message
and a severity (the host-facing diagnostic shape). -/
structure Diagnostic where
  line : Nat
  span : Span
  message : String
  severity : Severity
deriving DecidableEq, Repr

/-- Instrumentation tag recording which check emitted a diagnostic.  The
untagged engine functions are the `Prod.snd` projections of the tagged ones;
the tags exist only to let theorems speak about "unknown-key diagnostics",
"duplicate diagnostics", etc. -/
inductive DiagKind where
  | invalidLine
  | unknownKey
  | deprecatedKey
  | platformMismatch
  | valueType
  | duplicateKey
deriving DecidableEq, Repr

/-- Classification of a parsed line (`ParsedLine.type` in `src/types.ts`). -/
inductive LineType where
  | keyValue
  | comment
  | empty
  | invalid
deriving DecidableEq, Repr

/-- One physical line of the document as produced by the parser.  `key`,
`value`, `keyRange`, `valueRange` are optional, as in the TypeScript
interface. -/
structure ParsedLine where
  lineNumber : Nat
  raw : String
  type : LineType
  key : Option String
  value : Option String
  keyRange : Option Span
  valueRange : Option Span
deriving DecidableEq, Repr

/-- Schema metadata for one option.  `deprecated` and `repeatable` model the
optional TypeScript booleans (absent ↦ `false`, which is how every truthiness
test in the source reads them); `platforms` models the optional array. -/
structure OptionInfo where
  deprecated : Bool
  platforms : Option (List String)
  repeatable : Bool
deriving DecidableEq, Repr

/-- The schema artifact (`GhosttySchema` in `src/types.ts`): `options` is the
key → OptionInfo mapping (modelled as an association list with unique keys in
well-formed artifacts), `repeatableKeys` the extra list of repeatable key
names. -/
structure GhosttySchema where
  version : String
  description : String
  options : List (String × OptionInfo)
  repeatableKeys : List String
deriving DecidableEq, Repr

/-- Severity tag used by the external value validator. -/
inductive VSeverity where
  | error
  | warning
  | info
  | hint
deriving DecidableEq, Repr

/-- Result of one value check (`ValidationResult` in `src/types.ts`). -/
structure ValidationResult where
  isValid : Bool
  message : Option String
  severity : Option VSeverity
deriving DecidableEq, Repr

/-- The ambient editor configuration and host identity read by the
diagnostic provider: the three `ghostty-config-syntax.*` settings and
`process.platform`. -/
structure Config where
  enableDiagnostics : Bool
  showPlatformHints : Bool
  diagnosticSeverity : String
  processPlatform : String
deriving DecidableEq, Repr

/-- `isRepeatableKey` from `src/schema/loader.ts`: first check the
`repeatableKeys` array, then the option's own `repeatable` flag
(`option?.repeatable === true`). -/
def isRepeatableKey (schema : GhosttySchema) (key : String) : Bool :=
  if schema.repeatableKeys.contains key then
    true
  else
    match schema.options.lookup key with
    | some o => o.repeatable
    | none => false

/-- The minimal fallback schema returned by `loadSchema` when the artifact is
missing or unparsable. -/
def fallbackSchema : GhosttySchema :=
  { version := "0.0.0"
    description := "Fallback schema"
    options := []
    repeatableKeys := [] }

/-- The module-level `cachedSchema` variable of `src/schema/loader.ts`,
made explicit state. -/
structure LoaderState where
  cachedSchema : Option GhosttySchema
deriving DecidableEq, Repr

/-- Outcome of one `loadSchema` call: the returned schema, the cache state
afterwards, and how many times the artifact was read (attempted) during the
call. -/
structure LoadResult where
  schema : GhosttySchema
  state : LoaderState
  reads : Nat
deriving DecidableEq, Repr

/-- The artifact path computed by `loadSchema`
(`path.join(context.extensionPath, 'schema', 'ghostty-syntax.schema.json')`). -/
def schemaPathOf (extensionPath : String) : String :=
  extensionPath ++ "/schema/ghostty-syntax.schema.json"

/-- `loadSchemaFromPath` from `src/schema/loader.ts`: read the file at the
path and JSON-parse it.  The file system together with `JSON.parse` is
modelled as `env : String → Option GhosttySchema` (`none` models a read or
parse exception, which this function propagates to its caller). -/
def loadSchemaFromPath (env : String → Option GhosttySchema)
    (schemaPath : String) : Option GhosttySchema :=
  env schemaPath

/-- `loadSchema` from `src/schema/loader.ts`: return the cache when set;
otherwise read the artifact, caching on success and returning the (uncached)
fallback schema on failure. -/
def loadSchema (env : String → Option GhosttySchema) (extensionPath : String)
    (st : LoaderState) : LoadResult :=
  match st.cachedSchema with
  | some s => { schema := s, state := st, reads := 0 }
  | none =>
    match loadSchemaFromPath env (schemaPathOf extensionPath) with
    | some s => { schema := s, state := { cachedSchema := some s }, reads := 1 }
    | none => { schema := fallbackSchema, state := st, reads := 1 }

/-- Characterwise trim of the leading whitespace of a line
(JavaScript `String.prototype.trim`, left half). -/
def trimLeftChars (cs : List Char) : List Char :=
  cs.dropWhile Char.isWhitespace

/-- Characterwise trim (JavaScript `String.prototype.trim`). -/
def trimChars (cs : List Char) : List Char :=
  ((cs.dropWhile Char.isWhitespace).reverse.dropWhile Char.isWhitespace).reverse

/-- JavaScript `s.trim()` on Lean strings, via the characterwise model. -/
def jsTrim (s : String) : String :=
  String.mk (trimChars s.toList)

/-- Number of leading whitespace characters (the start offset of the trimmed
key inside the original line). -/
def leadingWs (cs : List Char) : Nat :=
  (cs.takeWhile Char.isWhitespace).length

/-- Index of the first unescaped `=` in a character list, scanning with the
previous character at hand; `i` is the index of the head of the list. -/
def findEqFrom : Option Char → Nat → List Char → Option Nat
  | _, _, [] => none
  | prev, i, c :: rest =>
    if c = '=' ∧ prev ≠ some '\\' then some i
    else findEqFrom (some c) (i + 1) rest

/-- Split a character list on newline characters (the list of lines;
`splitOnNl [] = [[]]`, matching `"".split` yielding one empty line). -/
def splitOnNl : List Char → List (List Char)
  | [] => [[]]
  | c :: rest =>
    if c = '\n' then [] :: splitOnNl rest
    else
      match splitOnNl rest with
      | [] => [[c]]
      | l :: ls => (c :: l) :: ls

/-- Drop one trailing carriage return (Windows line-terminator
normalization). -/
def stripCR (cs : List Char) : List Char :=
  if cs.getLast? = some '\r' then cs.dropLast else cs

/-- Modelled from the spec: per-line classification of the line parser
(`src/parser/configParser.ts`, which is not part of the snapshot).  In spec
order: empty after trim → `empty`; first non-whitespace character `#` →
`comment`; no unescaped `=` → `invalid`; empty trimmed key → `invalid`;
otherwise `keyValue` with the trimmed key, the raw value substring after the
separator, `keyRange` the offsets of the trimmed key within the original
line, and `valueRange` the offsets of the raw value substring. -/
def classifyLine (lineNumber : Nat) (cs : List Char) : ParsedLine :=
  let raw := String.mk cs
  match trimLeftChars cs with
  | [] =>
    { lineNumber, raw, type := .empty,
      key := none, value := none, keyRange := none, valueRange := none }
  | c :: _ =>
    if c = '#' then
      { lineNumber, raw, type := .comment,
        key := none, value := none, keyRange := none, valueRange := none }
    else
      match findEqFrom none 0 cs with
      | none =>
        { lineNumber, raw, type := .invalid,
          key := none, value := none, keyRange := none, valueRange := none }
      | some i =>
        let keyPart := cs.take i
        match trimChars keyPart with
        | [] =>
          { lineNumber, raw, type := .invalid,
            key := none, value := none, keyRange := none, valueRange := none }
        | k :: ks =>
          let keyStart := leadingWs keyPart
          { lineNumber, raw, type := .keyValue,
            key := some (String.mk (k :: ks)),
            value := some (String.mk (cs.drop (i + 1))),
            keyRange := some ⟨keyStart, keyStart + (k :: ks).length⟩,
            valueRange := some ⟨i + 1, cs.length⟩ }

/-- Classify each line with its zero-based line number, starting at `i`. -/
def parseLinesFrom (i : Nat) : List (List Char) → List ParsedLine
  | [] => []
  | cs :: rest => classifyLine i cs :: parseLinesFrom (i + 1) rest

/-- Modelled from the spec: `parseDocument(text)` of the line parser
(`src/parser/configParser.ts`, not in the snapshot): split on line
boundaries (normalizing Windows terminators), classify every line, preserve
zero-based numbering. -/
def parseDocument (text : String) : List ParsedLine :=
  parseLinesFrom 0 ((splitOnNl text.toList).map stripCR)

/-- `getCurrentPlatform` of the diagnostic provider: map `process.platform`
to the closed platform-tag set. -/
def getCurrentPlatform (cfg : Config) : Option String :=
  if cfg.processPlatform = "darwin" then some "macos"
  else if cfg.processPlatform = "linux" then some "linux"
  else none

/-- `getDiagnosticSeverity` of the diagnostic provider: closed lookup on the
`diagnosticSeverity` setting, defaulting to warning. -/
def getDiagnosticSeverity (cfg : Config) : Severity :=
  if cfg.diagnosticSeverity = "Error" then .error
  else if cfg.diagnosticSeverity = "Warning" then .warning
  else if cfg.diagnosticSeverity = "Information" then .information
  else if cfg.diagnosticSeverity = "Hint" then .hint
  else .warning

/-- `mapValidationSeverity` of the diagnostic provider: validator severity to
editor severity, defaulting to warning when absent. -/
def mapValidationSeverity : Option VSeverity → Severity
  | some .error => .error
  | some .warning => .warning
  | some .info => .information
  | some .hint => .hint
  | none => .warning

/-- JavaScript truthiness of the optional `line.key`: `undefined` and the
empty string are falsy. -/
def truthyKey : Option String → Option String
  | none => none
  | some k => if k = "" then none else some k

/-- The external value validator (`validateValue` of
`src/validation/validators.ts`, not in the snapshot), passed explicitly. -/
abbrev Validator := GhosttySchema → String → String → ValidationResult

/-- Whole-line fallback span `(0, raw.length)`. -/
def wholeLineSpan (line : ParsedLine) : Span :=
  ⟨0, line.raw.length⟩

/-- Key span with whole-line fallback, as computed at each emit site. -/
def keySpanOf (line : ParsedLine) : Span :=
  line.keyRange.getD (wholeLineSpan line)

/-- Value span with whole-line fallback. -/
def valueSpanOf (line : ParsedLine) : Span :=
  line.valueRange.getD (wholeLineSpan line)

/-- Fixed invalid-line message. -/
def invalidLineMessage : String :=
  "Invalid line format. Expected: key = value or # comment"

/-- Unknown-key message. -/
def unknownKeyMessage (key : String) : String :=
  s!"Unknown configuration key: \x27{key}\x27"

/-- Deprecated-key message. -/
def deprecatedMessage (key : String) : String :=
  s!"\x27{key}\x27 is deprecated and may be removed in future versions"

/-- Platform-mismatch message. -/
def platformMessage (key : String) (platforms : List String)
    (currentPlatform : String) : String :=
  let joined := String.intercalate ", " platforms
  s!"\x27{key}\x27 is only available on {joined} (current: {currentPlatform})"

/-- Duplicate-key message, citing the 1-based first line. -/
def duplicateMessage (key : String) (firstLine : Nat) : String :=
  s!"Duplicate key \x27{key}\x27 (first defined on line {firstLine + 1})"

/-- `validateLine` of the diagnostic provider, instrumented with the kind of
each emit site.  Mirrors the source order: invalid line (early return);
non-keyValue or falsy key (empty); unknown key (early return); deprecated
hint; platform hint; value validation on non-empty trimmed values. -/
def validateLineTagged (schema : GhosttySchema) (cfg : Config)
    (validateValue : Validator) (line : ParsedLine) :
    List (DiagKind × Diagnostic) :=
  if line.type = .invalid then
    [(.invalidLine,
      ⟨line.lineNumber, wholeLineSpan line, invalidLineMessage, .error⟩)]
  else
    match line.type, truthyKey line.key with
    | .keyValue, some key =>
      let value := line.value.getD ""
      match schema.options.lookup key with
      | none =>
        [(.unknownKey,
          ⟨line.lineNumber, keySpanOf line, unknownKeyMessage key,
           getDiagnosticSeverity cfg⟩)]
      | some opt =>
        let deprecatedDiags :=
          if opt.deprecated then
            [(DiagKind.deprecatedKey,
              ⟨line.lineNumber, keySpanOf line, deprecatedMessage key,
               Severity.hint⟩)]
          else []
        let platformDiags :=
          match opt.platforms with
          | some platforms =>
            if platforms.length > 0 then
              if cfg.showPlatformHints then
                match getCurrentPlatform cfg with
                | some currentPlatform =>
                  if platforms.contains currentPlatform then []
                  else
                    [(DiagKind.platformMismatch,
                      ⟨line.lineNumber, keySpanOf line,
                       platformMessage key platforms currentPlatform,
                       Severity.information⟩)]
                | none => []
              else []
            else []
          | none => []
        let valueDiags :=
          if jsTrim value ≠ "" then
            let validation := validateValue schema key value
            if validation.isValid then []
            else
              match validation.message with
              | some message =>
                if message = "" then []
                else
                  [(DiagKind.valueType,
                    ⟨line.lineNumber, valueSpanOf line, message,
                     mapValidationSeverity validation.severity⟩)]
              | none => []
          else []
        deprecatedDiags ++ platformDiags ++ valueDiags
    | _, _ => []

/-- `validateLine` of the diagnostic provider (untagged). -/
def validateLine (schema : GhosttySchema) (cfg : Config)
    (validateValue : Validator) (line : ParsedLine) : List Diagnostic :=
  (validateLineTagged schema cfg validateValue line).map Prod.snd

/-- Append one occurrence to the insertion-ordered occurrence map
(`Map<string, number[]>` of `validateDuplicates`). -/
def addOccurrence (acc : List (String × List Nat)) (k : String) (n : Nat) :
    List (String × List Nat) :=
  match acc with
  | [] => [(k, [n])]
  | (k2, ns) :: rest =>
    if k2 = k then (k2, ns ++ [n]) :: rest
    else (k2, ns) :: addOccurrence rest k n

/-- One step of the occurrence-collection loop: record a `keyValue` line
with a truthy key, skip everything else. -/
def occStep (acc : List (String × List Nat)) (line : ParsedLine) :
    List (String × List Nat) :=
  match line.type, truthyKey line.key with
  | .keyValue, some k => addOccurrence acc k line.lineNumber
  | _, _ => acc

/-- The occurrence map of `validateDuplicates`: key → line numbers of its
`keyValue` occurrences (with truthy key), in first-seen key order. -/
def keyOccurrences (lines : List ParsedLine) : List (String × List Nat) :=
  lines.foldl occStep []

/-- Diagnostics for one non-repeatable duplicated key: one per occurrence
after the first, looked up back in the line list and skipped when the line
has no recorded `keyRange`. -/
def dupDiagsFor (lines : List ParsedLine) (key : String)
    (lineNumbers : List Nat) : List (DiagKind × Diagnostic) :=
  match lineNumbers with
  | [] => []
  | firstLine :: rest =>
    rest.filterMap fun lineNum =>
      match lines.find? (fun l => decide (l.lineNumber = lineNum)) with
      | some line =>
        match line.keyRange with
        | some r =>
          some (DiagKind.duplicateKey,
            ⟨lineNum, r, duplicateMessage key firstLine, Severity.warning⟩)
        | none => none
      | none => none

/-- `validateDuplicates` of the diagnostic provider, instrumented: group the
`keyValue` occurrences by key, skip singleton groups and repeatable keys,
emit one warning per later occurrence. -/
def validateDuplicatesTagged (schema : GhosttySchema)
    (lines : List ParsedLine) : List (DiagKind × Diagnostic) :=
  (keyOccurrences lines).flatMap fun g =>
    if g.2.length ≤ 1 then []
    else if isRepeatableKey schema g.1 then []
    else dupDiagsFor lines g.1 g.2

/-- `validateDuplicates` of the diagnostic provider (untagged). -/
def validateDuplicates (schema : GhosttySchema) (lines : List ParsedLine) :
    List Diagnostic :=
  (validateDuplicatesTagged schema lines).map Prod.snd

/-- The whole-document validation pass (the spec's `validateDocument`, the
source's `updateDiagnostics`), instrumented: empty when `enableDiagnostics`
is off; otherwise the per-line diagnostics in line order followed by the
duplicate pass. -/
def validateDocumentTagged (schema : GhosttySchema) (cfg : Config)
    (validateValue : Validator) (text : String) :
    List (DiagKind × Diagnostic) :=
  if cfg.enableDiagnostics then
    let parsedLines := parseDocument text
    parsedLines.flatMap (validateLineTagged schema cfg validateValue)
      ++ validateDuplicatesTagged schema parsedLines
  else []

/-- `validateDocument` (untagged diagnostic sequence handed to the host). -/
def validateDocument (schema : GhosttySchema) (cfg : Config)
    (validateValue : Validator) (text : String) : List Diagnostic :=
  (validateDocumentTagged schema cfg validateValue text).map Prod.snd

/-- Occurrence line numbers of key `k` among the `keyValue` lines, in
document order (the semantic counterpart of the occurrence map). -/
def occList (lines : List ParsedLine) (k : String) : List Nat :=
  (lines.filter fun l =>
    decide (l.type = LineType.keyValue ∧ truthyKey l.key = some k)).map
    ParsedLine.lineNumber

/-- The tagged diagnostics of a list that sit on line `n`. -/
def diagsAtLine (ds : List (DiagKind × Diagnostic)) (n : Nat) :
    List (DiagKind × Diagnostic) :=
  ds.filter fun d => decide (d.2.line = n)

/-- The tagged diagnostics of kind `k`. -/
def diagsOfKind (ds : List (DiagKind × Diagnostic)) (k : DiagKind) :
    List (DiagKind × Diagnostic) :=
  ds.filter fun d => decide (d.1 = k)

/-- The deprecated-key block of `validateLine` on a known key, as a
standalone function (proved equal to the corresponding slice of
`validateLineTagged` in `validateLineTagged_known`). -/
def deprecatedDiags (line : ParsedLine) (key : String) (opt : OptionInfo) :
    List (DiagKind × Diagnostic) :=
  if opt.deprecated then
    [(DiagKind.deprecatedKey,
      ⟨line.lineNumber, keySpanOf line, deprecatedMessage key, Severity.hint⟩)]
  else []

/-- The platform-hint block of `validateLine` on a known key. -/
def platformDiags (cfg : Config) (line : ParsedLine) (key : String)
    (opt : OptionInfo) : List (DiagKind × Diagnostic) :=
  match opt.platforms with
  | some platforms =>
    if platforms.length > 0 then
      if cfg.showPlatformHints then
        match getCurrentPlatform cfg with
        | some currentPlatform =>
          if platforms.contains currentPlatform then []
          else
            [(DiagKind.platformMismatch,
              ⟨line.lineNumber, keySpanOf line,
               platformMessage key platforms currentPlatform,
               Severity.information⟩)]
        | none => []
      else []
    else []
  | none => []

/-- The value-validation block of `validateLine` on a known key. -/
def valueDiags (schema : GhosttySchema) (validateValue : Validator)
    (line : ParsedLine) (key : String) : List (DiagKind × Diagnostic) :=
  let value := line.value.getD ""
  if jsTrim value ≠ "" then
    let validation := validateValue schema key value
    if validation.isValid then []
    else
      match validation.message with
      | some message =>
        if message = "" then []
        else
          [(DiagKind.valueType,
            ⟨line.lineNumber, valueSpanOf line, message,
             mapValidationSeverity validation.severity⟩)]
      | none => []
  else []

/-- Concrete editor configuration for witnesses: diagnostics on, platform
hints on, default severity, Linux host. -/
def testCfg : Config :=
  ⟨true, true, "Warning", "linux"⟩

/-- Concrete validator that accepts everything. -/
def testValidatorOk : Validator :=
  fun _ _ _ => ⟨true, none, none⟩

/-- Concrete validator that rejects with a message and error severity. -/
def testValidatorBad : Validator :=
  fun _ _ _ => ⟨false, some "bad value", some VSeverity.error⟩

/-- Concrete validator that rejects without any message. -/
def testValidatorNoMsg : Validator :=
  fun _ _ _ => ⟨false, none, none⟩

/-- Concrete `keyValue` line `a=x`. -/
def testLineKV : ParsedLine :=
  ⟨0, "a=x", .keyValue, some "a", some "x", some ⟨0, 1⟩, some ⟨2, 3⟩⟩

/-- Concrete `keyValue` line `a=` with an empty value. -/
def testLineEmptyVal : ParsedLine :=
  ⟨0, "a=", .keyValue, some "a", some "", some ⟨0, 1⟩, some ⟨2, 2⟩⟩

/-- Concrete schema declaring the plain option `a`. -/
def testSchemaA : GhosttySchema :=
  ⟨"1.0.0", "test", [("a", ⟨false, none, false⟩)], []⟩

/-- Concrete schema declaring option `a` restricted to macOS. -/
def testSchemaPlat : GhosttySchema :=
  ⟨"1.0.0", "test", [("a", ⟨false, some ["macos"], false⟩)], []⟩

/-- C2: `isRepeatableKey(schema, k)` is true iff `k` is listed in
`schema.repeatableKeys` or `schema.options[k]` exists with `repeatable =
true`; for every other key (including keys absent from the schema) it is
false. -/
theorem isRepeatableKey_iff (schema : GhosttySchema) (k : String) :
    isRepeatableKey schema k = true ↔
      k ∈ schema.repeatableKeys ∨
        ∃ o, schema.options.lookup k = some o ∧ o.repeatable = true := by
  unfold isRepeatableKey
  by_cases hc : k ∈ schema.repeatableKeys
  · simp [hc]
  · cases h : schema.options.lookup k with
    | none => simp [h, hc]
    | some o => simp [h, hc]

/-- C6: when the cache is empty and the artifact at the computed schema path
is missing or unparsable, `loadSchema` still returns a schema (no exception
reaches the caller in the model, which is total), namely the fallback schema,
which has no options and no repeatable keys. -/
theorem loadSchema_failure_returns_empty_schema
    (env : String → Option GhosttySchema) (extensionPath : String)
    (st : LoaderState) (hcache : st.cachedSchema = none)
    (hmiss : env (schemaPathOf extensionPath) = none) :
    (loadSchema env extensionPath st).schema = fallbackSchema ∧
      fallbackSchema.options = [] ∧ fallbackSchema.repeatableKeys = [] := by
  unfold loadSchema loadSchemaFromPath
  rw [hcache, hmiss]
  exact ⟨rfl, rfl, rfl⟩

/-- Witness for `loadSchema_failure_returns_empty_schema` at a concrete
missing-artifact environment. -/
theorem loadSchema_failure_returns_empty_schema_witness :
    (loadSchema (fun _ => none) "ext" ⟨none⟩).schema = fallbackSchema ∧
      fallbackSchema.options = [] ∧ fallbackSchema.repeatableKeys = [] :=
  loadSchema_failure_returns_empty_schema (fun _ => none) "ext" ⟨none⟩ rfl rfl

/-- C7 counterexample: with a missing artifact, the first `loadSchema` call
fails and caches nothing, so the second call reads (attempts) the artifact
again — it performs 1 read, not 0, refuting "every call after the first
returns the cached schema without re-reading the artifact" for arbitrary
call sequences. -/
theorem loadSchema_second_call_rereads_on_failure :
    (loadSchema (fun _ => none) "ext"
        (loadSchema (fun _ => none) "ext" ⟨none⟩).state).reads = 1 := by
  decide

/-- C7 (amended): when a call actually loads the artifact successfully, the
result is cached; every subsequent call returns that same schema with zero
reads and an unchanged state.  After a failed load nothing is cached and the
next call reads again. -/
theorem loadSchema_cached_after_success
    (env : String → Option GhosttySchema) (extensionPath : String)
    (st : LoaderState) (s : GhosttySchema)
    (hcache : st.cachedSchema = none)
    (hhit : env (schemaPathOf extensionPath) = some s) :
    ((loadSchema env extensionPath st).schema = s ∧
      (loadSchema env extensionPath st).reads = 1 ∧
      (loadSchema env extensionPath st).state.cachedSchema = some s) ∧
    (∀ st2 : LoaderState, st2.cachedSchema = some s →
      loadSchema env extensionPath st2 = ⟨s, st2, 0⟩) ∧
    (∀ (env2 : String → Option GhosttySchema) (ep2 : String)
        (st2 : LoaderState), st2.cachedSchema = none →
      env2 (schemaPathOf ep2) = none →
      (loadSchema env2 ep2 st2).state = st2 ∧
        (loadSchema env2 ep2 st2).reads = 1) := by
  refine ⟨?_, ?_, ?_⟩
  · unfold loadSchema loadSchemaFromPath
    rw [hcache, hhit]
    exact ⟨rfl, rfl, rfl⟩
  · intro st2 h2
    unfold loadSchema
    rw [h2]
  · intro env2 ep2 st2 h2 hm
    unfold loadSchema loadSchemaFromPath
    rw [h2, hm]
    exact ⟨rfl, rfl⟩

/-- Witness for `loadSchema_cached_after_success` at a concrete environment
that always yields the fallback schema value as its artifact. -/
theorem loadSchema_cached_after_success_witness :
    ((loadSchema (fun _ => some fallbackSchema) "ext" ⟨none⟩).schema =
        fallbackSchema ∧
      (loadSchema (fun _ => some fallbackSchema) "ext" ⟨none⟩).reads = 1 ∧
      (loadSchema (fun _ => some fallbackSchema) "ext" ⟨none⟩).state.cachedSchema =
        some fallbackSchema) ∧
    (∀ st2 : LoaderState, st2.cachedSchema = some fallbackSchema →
      loadSchema (fun _ => some fallbackSchema) "ext" st2 =
        ⟨fallbackSchema, st2, 0⟩) ∧
    (∀ (env2 : String → Option GhosttySchema) (ep2 : String)
        (st2 : LoaderState), st2.cachedSchema = none →
      env2 (schemaPathOf ep2) = none →
      (loadSchema env2 ep2 st2).state = st2 ∧
        (loadSchema env2 ep2 st2).reads = 1) :=
  loadSchema_cached_after_success (fun _ => some fallbackSchema) "ext"
    ⟨none⟩ fallbackSchema rfl rfl

/-- On a known key, `validateLine` is the concatenation of its deprecated,
platform and value blocks. -/
theorem validateLineTagged_known (schema : GhosttySchema) (cfg : Config)
    (v : Validator) (line : ParsedLine) (k : String) (opt : OptionInfo)
    (htype : line.type = LineType.keyValue)
    (hkey : truthyKey line.key = some k)
    (hopt : schema.options.lookup k = some opt) :
    validateLineTagged schema cfg v line =
      deprecatedDiags line k opt ++ platformDiags cfg line k opt
        ++ valueDiags schema v line k := by
  simp only [validateLineTagged, deprecatedDiags, platformDiags, valueDiags,
    htype, hkey, hopt]
  simp

/-- Every deprecated-block diagnostic has that kind and sits on the line. -/
theorem mem_deprecatedDiags_kind (line : ParsedLine) (k : String)
    (opt : OptionInfo) :
    ∀ d ∈ deprecatedDiags line k opt,
      d.1 = DiagKind.deprecatedKey ∧ d.2.line = line.lineNumber := by
  unfold deprecatedDiags
  split <;> simp

/-- Every platform-block diagnostic has that kind and sits on the line. -/
theorem mem_platformDiags_kind (cfg : Config) (line : ParsedLine) (k : String)
    (opt : OptionInfo) :
    ∀ d ∈ platformDiags cfg line k opt,
      d.1 = DiagKind.platformMismatch ∧ d.2.line = line.lineNumber := by
  unfold platformDiags
  split
  · split
    · split
      · split
        · split <;> simp
        · simp
      · simp
    · simp
  · simp

/-- Every value-block diagnostic has that kind and sits on the line. -/
theorem mem_valueDiags_kind (schema : GhosttySchema) (v : Validator)
    (line : ParsedLine) (k : String) :
    ∀ d ∈ valueDiags schema v line k,
      d.1 = DiagKind.valueType ∧ d.2.line = line.lineNumber := by
  intro d hd
  unfold valueDiags at hd
  simp only at hd
  split at hd
  · split at hd
    · simp at hd
    · split at hd
      · split at hd
        · simp at hd
        · simp at hd
          simp [hd]
      · simp at hd
  · simp at hd

/-- `validateLine` on an `invalid` line: one error diagnostic spanning the
whole line. -/
theorem validateLineTagged_invalid (schema : GhosttySchema) (cfg : Config)
    (v : Validator) (line : ParsedLine)
    (htype : line.type = LineType.invalid) :
    validateLineTagged schema cfg v line =
      [(DiagKind.invalidLine,
        ⟨line.lineNumber, wholeLineSpan line, invalidLineMessage,
         Severity.error⟩)] := by
  simp only [validateLineTagged, htype]
  simp

/-- `validateLine` on an unknown key: exactly the one unknown-key diagnostic
at the key span with the configured severity. -/
theorem validateLineTagged_unknown (schema : GhosttySchema) (cfg : Config)
    (v : Validator) (line : ParsedLine) (k : String)
    (htype : line.type = LineType.keyValue)
    (hkey : truthyKey line.key = some k)
    (hopt : schema.options.lookup k = none) :
    validateLineTagged schema cfg v line =
      [(DiagKind.unknownKey,
        ⟨line.lineNumber, keySpanOf line, unknownKeyMessage k,
         getDiagnosticSeverity cfg⟩)] := by
  simp only [validateLineTagged, htype, hkey, hopt]
  simp

/-- `validateLine` on comments, blanks and falsy keys: no diagnostics. -/
theorem validateLineTagged_skip (schema : GhosttySchema) (cfg : Config)
    (v : Validator) (line : ParsedLine)
    (htype : line.type ≠ LineType.invalid)
    (h : line.type ≠ LineType.keyValue ∨ truthyKey line.key = none) :
    validateLineTagged schema cfg v line = [] := by
  unfold validateLineTagged
  rw [if_neg htype]
  rcases h with h | h
  · cases ht : line.type <;> simp_all
  · cases ht : line.type <;> simp_all

/-- A kind filter over diagnostics of only other kinds is empty. -/
theorem diagsOfKind_eq_nil {ds : List (DiagKind × Diagnostic)} {k : DiagKind}
    (h : ∀ d ∈ ds, d.1 ≠ k) : diagsOfKind ds k = [] := by
  unfold diagsOfKind
  rw [List.filter_eq_nil_iff]
  intro a ha
  simp [h a ha]

/-- A kind filter over diagnostics all of that kind changes nothing. -/
theorem diagsOfKind_eq_self {ds : List (DiagKind × Diagnostic)} {k : DiagKind}
    (h : ∀ d ∈ ds, d.1 = k) : diagsOfKind ds k = ds := by
  unfold diagsOfKind
  rw [List.filter_eq_self]
  intro a ha
  simp [h a ha]

/-- Kind filters distribute over concatenation. -/
theorem diagsOfKind_append (a b : List (DiagKind × Diagnostic)) (k : DiagKind) :
    diagsOfKind (a ++ b) k = diagsOfKind a k ++ diagsOfKind b k :=
  List.filter_append a b

/-- The value block is empty on an empty (or whitespace-only) value. -/
theorem valueDiags_of_empty (schema : GhosttySchema) (v : Validator)
    (line : ParsedLine) (k : String)
    (hempty : jsTrim (line.value.getD "") = "") :
    valueDiags schema v line k = [] := by
  unfold valueDiags
  simp [hempty]

/-- The value block on an invalid result carrying a non-empty message is the
one diagnostic at the value span with the mapped severity. -/
theorem valueDiags_of_invalid (schema : GhosttySchema) (v : Validator)
    (line : ParsedLine) (k m : String) (sv : Option VSeverity)
    (hval : jsTrim (line.value.getD "") ≠ "")
    (hres : v schema k (line.value.getD "") = ⟨false, some m, sv⟩)
    (hm : m ≠ "") :
    valueDiags schema v line k =
      [(DiagKind.valueType,
        ⟨line.lineNumber, valueSpanOf line, m, mapValidationSeverity sv⟩)] := by
  unfold valueDiags
  simp [hval, hres, hm]

/-- The platform block when the restriction excludes the current platform. -/
theorem platformDiags_emit (cfg : Config) (line : ParsedLine) (k : String)
    (opt : OptionInfo) (platforms : List String) (p : String)
    (hplat : opt.platforms = some platforms) (hlen : platforms ≠ [])
    (hsh : cfg.showPlatformHints = true)
    (hp : getCurrentPlatform cfg = some p)
    (hnc : platforms.contains p = false) :
    platformDiags cfg line k opt =
      [(DiagKind.platformMismatch,
        ⟨line.lineNumber, keySpanOf line, platformMessage k platforms p,
         Severity.information⟩)] := by
  simp only [platformDiags, hplat, hsh, hp, hnc]
  simp [List.length_pos, hlen]

/-- The platform block is empty when platform hints are disabled. -/
theorem platformDiags_no_hints (cfg : Config) (line : ParsedLine) (k : String)
    (opt : OptionInfo) (hsh : cfg.showPlatformHints = false) :
    platformDiags cfg line k opt = [] := by
  unfold platformDiags
  split
  · simp [hsh]
  · rfl

/-- The platform block is empty when the platform is undetermined. -/
theorem platformDiags_no_platform (cfg : Config) (line : ParsedLine)
    (k : String) (opt : OptionInfo) (hp : getCurrentPlatform cfg = none) :
    platformDiags cfg line k opt = [] := by
  unfold platformDiags
  split
  · simp [hp]
  · rfl

/-- The platform block is empty when the current platform is allowed. -/
theorem platformDiags_member (cfg : Config) (line : ParsedLine) (k : String)
    (opt : OptionInfo) (platforms : List String) (p : String)
    (hplat : opt.platforms = some platforms)
    (hp : getCurrentPlatform cfg = some p)
    (hc : platforms.contains p = true) :
    platformDiags cfg line k opt = [] := by
  simp only [platformDiags, hplat, hp, hc]
  simp

/-- The platform block ignores the `diagnosticSeverity` setting. -/
theorem platformDiags_config_indep (cfg : Config) (s : String)
    (line : ParsedLine) (k : String) (opt : OptionInfo) :
    platformDiags { cfg with diagnosticSeverity := s } line k opt =
      platformDiags cfg line k opt := rfl

/-- Away from unknown-key diagnostics, `validateLine` ignores the
`diagnosticSeverity` setting. -/
theorem validateLineTagged_filter_nonUnknown (schema : GhosttySchema)
    (cfg : Config) (s : String) (v : Validator) (line : ParsedLine) :
    (validateLineTagged schema { cfg with diagnosticSeverity := s } v
        line).filter (fun d => decide (d.1 ≠ DiagKind.unknownKey)) =
      (validateLineTagged schema cfg v line).filter
        (fun d => decide (d.1 ≠ DiagKind.unknownKey)) := by
  by_cases hinv : line.type = LineType.invalid
  · rw [validateLineTagged_invalid _ _ _ _ hinv,
      validateLineTagged_invalid _ _ _ _ hinv]
  · by_cases hkv : line.type = LineType.keyValue
    · cases hk : truthyKey line.key with
      | none =>
        rw [validateLineTagged_skip _ _ _ _ hinv (Or.inr hk),
          validateLineTagged_skip _ _ _ _ hinv (Or.inr hk)]
      | some k =>
        cases hopt : schema.options.lookup k with
        | none =>
          rw [validateLineTagged_unknown _ _ _ _ _ hkv hk hopt,
            validateLineTagged_unknown _ _ _ _ _ hkv hk hopt]
          simp
        | some opt =>
          rw [validateLineTagged_known _ _ _ _ _ _ hkv hk hopt,
            validateLineTagged_known _ _ _ _ _ _ hkv hk hopt,
            platformDiags_config_indep]
    · rw [validateLineTagged_skip _ _ _ _ hinv (Or.inl hkv),
        validateLineTagged_skip _ _ _ _ hinv (Or.inl hkv)]

/-- Filtering a flat map is invariant under blockwise filter equality. -/
theorem filter_flatMap_congr {α β : Type} (p : β → Bool) (f g : α → List β)
    (l : List α) (h : ∀ a ∈ l, (f a).filter p = (g a).filter p) :
    (l.flatMap f).filter p = (l.flatMap g).filter p := by
  induction l with
  | nil => rfl
  | cons x xs ih =>
    simp only [List.flatMap_cons, List.filter_append]
    rw [h x (by simp), ih (fun a ha => h a (by simp [ha]))]

/-- Away from unknown-key diagnostics, the whole-document pass ignores the
`diagnosticSeverity` setting. -/
theorem validateDocumentTagged_filter_nonUnknown (schema : GhosttySchema)
    (cfg : Config) (s : String) (v : Validator) (text : String) :
    (validateDocumentTagged schema { cfg with diagnosticSeverity := s } v
        text).filter (fun d => decide (d.1 ≠ DiagKind.unknownKey)) =
      (validateDocumentTagged schema cfg v text).filter
        (fun d => decide (d.1 ≠ DiagKind.unknownKey)) := by
  unfold validateDocumentTagged
  by_cases he : cfg.enableDiagnostics
  · have he2 :
        ({ cfg with diagnosticSeverity := s } : Config).enableDiagnostics =
          true := he
    rw [if_pos he, if_pos he2]
    simp only [List.filter_append]
    rw [filter_flatMap_congr _ _ _ _
      (fun l _ => validateLineTagged_filter_nonUnknown schema cfg s v l)]
  · have he2 :
        ({ cfg with diagnosticSeverity := s } : Config).enableDiagnostics =
          cfg.enableDiagnostics := rfl
    rw [if_neg he, if_neg (by rw [he2]; exact he)]

/-- On a known key, the platform-kind slice of `validateLine` is exactly the
platform block. -/
theorem diagsOfKind_platform_red (schema : GhosttySchema) (cfg : Config)
    (v : Validator) (line : ParsedLine) (k : String) (opt : OptionInfo)
    (htype : line.type = LineType.keyValue)
    (hkey : truthyKey line.key = some k)
    (hopt : schema.options.lookup k = some opt) :
    diagsOfKind (validateLineTagged schema cfg v line)
        DiagKind.platformMismatch = platformDiags cfg line k opt := by
  rw [validateLineTagged_known _ _ _ _ _ _ htype hkey hopt,
    diagsOfKind_append, diagsOfKind_append,
    show diagsOfKind (deprecatedDiags line k opt) DiagKind.platformMismatch
        = [] from diagsOfKind_eq_nil (fun d hd => by
      simp [(mem_deprecatedDiags_kind _ _ _ d hd).1]),
    show diagsOfKind (valueDiags schema v line k) DiagKind.platformMismatch
        = [] from diagsOfKind_eq_nil (fun d hd => by
      simp [(mem_valueDiags_kind _ _ _ _ d hd).1]),
    diagsOfKind_eq_self (fun d hd => (mem_platformDiags_kind _ _ _ _ d hd).1)]
  simp

/-- C3: for a `keyValue` line whose key has no schema entry, `validateLine`
emits exactly one diagnostic, at the key span, with the configured severity
and a message naming the key, and nothing else for that line; unrecognized
severity strings fall back to warning; and changing `diagnosticSeverity`
leaves every non-unknown-key diagnostic of the whole-document pass
unchanged. -/
theorem unknown_key_diagnostic (schema : GhosttySchema) (cfg : Config)
    (v : Validator) (line : ParsedLine) (k : String)
    (htype : line.type = LineType.keyValue)
    (hkey : truthyKey line.key = some k)
    (hopt : schema.options.lookup k = none) :
    validateLineTagged schema cfg v line =
      [(DiagKind.unknownKey,
        ⟨line.lineNumber, keySpanOf line, unknownKeyMessage k,
         getDiagnosticSeverity cfg⟩)] ∧
    (∀ s, s ≠ "Error" → s ≠ "Information" → s ≠ "Hint" →
      getDiagnosticSeverity { cfg with diagnosticSeverity := s } =
        Severity.warning) ∧
    (∀ (s text : String),
      (validateDocumentTagged schema { cfg with diagnosticSeverity := s } v
          text).filter (fun d => decide (d.1 ≠ DiagKind.unknownKey)) =
        (validateDocumentTagged schema cfg v text).filter
          (fun d => decide (d.1 ≠ DiagKind.unknownKey))) := by
  refine ⟨validateLineTagged_unknown _ _ _ _ _ htype hkey hopt, ?_, ?_⟩
  · intro s h1 h2 h3
    unfold getDiagnosticSeverity
    have hproj :
        ({ cfg with diagnosticSeverity := s } : Config).diagnosticSeverity =
          s := rfl
    rw [hproj, if_neg h1]
    by_cases hw : s = "Warning"
    · rw [if_pos hw]
    · rw [if_neg hw, if_neg h2, if_neg h3]
  · intro s text
    exact validateDocumentTagged_filter_nonUnknown schema cfg s v text

/-- Witness for `unknown_key_diagnostic`: key `a` against the empty fallback
schema, default configuration. -/
theorem unknown_key_diagnostic_witness :
    validateLineTagged fallbackSchema testCfg testValidatorOk testLineKV =
      [(DiagKind.unknownKey,
        ⟨0, ⟨0, 1⟩, unknownKeyMessage "a", Severity.warning⟩)] := by
  have h := (unknown_key_diagnostic fallbackSchema testCfg testValidatorOk
    testLineKV "a" rfl (by decide) rfl).1
  rw [h]
  decide

/-- C4: on a known key with an empty (or whitespace-only) trimmed value,
`validateLine` gives the same diagnostics for every validator (the validator
is never invoked) and no value-type diagnostic at all. -/
theorem empty_value_no_value_diagnostic (schema : GhosttySchema)
    (cfg : Config) (v v2 : Validator) (line : ParsedLine) (k : String)
    (opt : OptionInfo)
    (htype : line.type = LineType.keyValue)
    (hkey : truthyKey line.key = some k)
    (hopt : schema.options.lookup k = some opt)
    (hempty : jsTrim (line.value.getD "") = "") :
    validateLineTagged schema cfg v line =
      validateLineTagged schema cfg v2 line ∧
    diagsOfKind (validateLineTagged schema cfg v line) DiagKind.valueType =
      [] := by
  rw [validateLineTagged_known _ _ _ _ _ _ htype hkey hopt,
    validateLineTagged_known _ _ _ _ _ _ htype hkey hopt,
    valueDiags_of_empty _ _ _ _ hempty, valueDiags_of_empty _ _ _ _ hempty]
  refine ⟨rfl, ?_⟩
  rw [diagsOfKind_append, diagsOfKind_append,
    show diagsOfKind (deprecatedDiags line k opt) DiagKind.valueType = []
      from diagsOfKind_eq_nil (fun d hd => by
        simp [(mem_deprecatedDiags_kind _ _ _ d hd).1]),
    show diagsOfKind (platformDiags cfg line k opt) DiagKind.valueType = []
      from diagsOfKind_eq_nil (fun d hd => by
        simp [(mem_platformDiags_kind _ _ _ _ d hd).1])]
  rfl

/-- Witness for `empty_value_no_value_diagnostic`: line `a=` with a rejecting
and an accepting validator. -/
theorem empty_value_no_value_diagnostic_witness :
    validateLineTagged testSchemaA testCfg testValidatorBad testLineEmptyVal =
      validateLineTagged testSchemaA testCfg testValidatorOk
        testLineEmptyVal ∧
    diagsOfKind
        (validateLineTagged testSchemaA testCfg testValidatorBad
          testLineEmptyVal) DiagKind.valueType = [] :=
  empty_value_no_value_diagnostic testSchemaA testCfg testValidatorBad
    testValidatorOk testLineEmptyVal "a" ⟨false, none, false⟩ rfl (by decide)
    (by decide) (by decide)

/-- C5: on a known key with a non-empty platform restriction, `validateLine`
emits the info-severity platform diagnostic at the key span exactly when
platform hints are on, the current platform is determined, and it is not in
the restriction; it is suppressed when hints are off, the platform is
undetermined, or the platform is allowed. -/
theorem platform_mismatch_diagnostic_iff (schema : GhosttySchema)
    (cfg : Config) (v : Validator) (line : ParsedLine) (k : String)
    (opt : OptionInfo) (platforms : List String)
    (htype : line.type = LineType.keyValue)
    (hkey : truthyKey line.key = some k)
    (hopt : schema.options.lookup k = some opt)
    (hplat : opt.platforms = some platforms)
    (hne : platforms ≠ []) :
    (∀ p, cfg.showPlatformHints = true → getCurrentPlatform cfg = some p →
      platforms.contains p = false →
      diagsOfKind (validateLineTagged schema cfg v line)
          DiagKind.platformMismatch =
        [(DiagKind.platformMismatch,
          ⟨line.lineNumber, keySpanOf line, platformMessage k platforms p,
           Severity.information⟩)]) ∧
    (cfg.showPlatformHints = false →
      diagsOfKind (validateLineTagged schema cfg v line)
        DiagKind.platformMismatch = []) ∧
    (getCurrentPlatform cfg = none →
      diagsOfKind (validateLineTagged schema cfg v line)
        DiagKind.platformMismatch = []) ∧
    (∀ p, getCurrentPlatform cfg = some p → platforms.contains p = true →
      diagsOfKind (validateLineTagged schema cfg v line)
        DiagKind.platformMismatch = []) := by
  rw [diagsOfKind_platform_red schema cfg v line k opt htype hkey hopt]
  refine ⟨?_, ?_, ?_, ?_⟩
  · intro p hsh hp hnc
    exact platformDiags_emit cfg line k opt platforms p hplat hne hsh hp hnc
  · intro hsh
    exact platformDiags_no_hints cfg line k opt hsh
  · intro hp
    exact platformDiags_no_platform cfg line k opt hp
  · intro p hp hc
    exact platformDiags_member cfg line k opt platforms p hplat hp hc

/-- Witness for `platform_mismatch_diagnostic_iff`: a macOS-only option on a
Linux host with hints enabled. -/
theorem platform_mismatch_diagnostic_iff_witness :
    diagsOfKind
        (validateLineTagged testSchemaPlat testCfg testValidatorOk testLineKV)
        DiagKind.platformMismatch =
      [(DiagKind.platformMismatch,
        ⟨0, ⟨0, 1⟩, platformMessage "a" ["macos"] "linux",
         Severity.information⟩)] := by
  have h := (platform_mismatch_diagnostic_iff testSchemaPlat testCfg
    testValidatorOk testLineKV "a" ⟨false, some ["macos"], false⟩ ["macos"]
    rfl (by decide) (by decide) rfl (by decide)).1 "linux" rfl (by decide)
    (by decide)
  rw [h]
  decide

/-- C9 counterexample: a validator result with `isValid = false` but no
message makes `validateLine` emit no diagnostic at all, so an invalid result
can disappear without a diagnostic, contrary to the claim. -/
theorem invalid_result_without_message_no_diag :
    (testValidatorNoMsg testSchemaA "a" "x").isValid = false ∧
    validateLineTagged testSchemaA testCfg testValidatorNoMsg testLineKV =
      [] := by
  decide

/-- C9 (amended): on a known key with a non-empty trimmed value, a validator
result with `isValid = false` carrying a non-empty message yields exactly one
value diagnostic, at the value span (whole-line fallback inside
`valueSpanOf`), with that message and the mapped severity; a missing
validator severity maps to warning. -/
theorem invalid_value_emits_one_diagnostic (schema : GhosttySchema)
    (cfg : Config) (v : Validator) (line : ParsedLine) (k m : String)
    (opt : OptionInfo) (sv : Option VSeverity)
    (htype : line.type = LineType.keyValue)
    (hkey : truthyKey line.key = some k)
    (hopt : schema.options.lookup k = some opt)
    (hval : jsTrim (line.value.getD "") ≠ "")
    (hres : v schema k (line.value.getD "") = ⟨false, some m, sv⟩)
    (hm : m ≠ "") :
    diagsOfKind (validateLineTagged schema cfg v line) DiagKind.valueType =
      [(DiagKind.valueType,
        ⟨line.lineNumber, valueSpanOf line, m, mapValidationSeverity sv⟩)] ∧
    mapValidationSeverity none = Severity.warning := by
  refine ⟨?_, rfl⟩
  rw [validateLineTagged_known _ _ _ _ _ _ htype hkey hopt,
    diagsOfKind_append, diagsOfKind_append,
    show diagsOfKind (deprecatedDiags line k opt) DiagKind.valueType = []
      from diagsOfKind_eq_nil (fun d hd => by
        simp [(mem_deprecatedDiags_kind _ _ _ d hd).1]),
    show diagsOfKind (platformDiags cfg line k opt) DiagKind.valueType = []
      from diagsOfKind_eq_nil (fun d hd => by
        simp [(mem_platformDiags_kind _ _ _ _ d hd).1]),
    diagsOfKind_eq_self (fun d hd => (mem_valueDiags_kind _ _ _ _ d hd).1),
    valueDiags_of_invalid _ _ _ _ _ _ hval hres hm]
  rfl

/-- Witness for `invalid_value_emits_one_diagnostic`: line `a=x` with the
rejecting validator. -/
theorem invalid_value_emits_one_diagnostic_witness :
    diagsOfKind
        (validateLineTagged testSchemaA testCfg testValidatorBad testLineKV)
        DiagKind.valueType =
      [(DiagKind.valueType,
        ⟨0, ⟨2, 3⟩, "bad value", Severity.error⟩)] ∧
    mapValidationSeverity none = Severity.warning := by
  have h := invalid_value_emits_one_diagnostic testSchemaA testCfg
    testValidatorBad testLineKV "a" "bad value" ⟨false, none, false⟩
    (some VSeverity.error) rfl (by decide) (by decide) (by decide) rfl
    (by decide)
  exact ⟨by rw [h.1]; decide, h.2⟩

/-- Every classified line carries the line number it was given. -/
theorem classifyLine_lineNumber (i : Nat) (cs : List Char) :
    (classifyLine i cs).lineNumber = i := by
  unfold classifyLine
  dsimp only
  split
  · rfl
  · split
    · rfl
    · split
      · rfl
      · split
        · rfl
        · rfl

/-- A classified `keyValue` line has a non-empty key and a recorded key
range. -/
theorem classifyLine_keyValue (i : Nat) (cs : List Char)
    (h : (classifyLine i cs).type = LineType.keyValue) :
    (∃ k ks, (classifyLine i cs).key = some (String.mk (k :: ks))) ∧
    ∃ r, (classifyLine i cs).keyRange = some r := by
  unfold classifyLine at h ⊢
  dsimp only at h ⊢
  split at h
  · exact absurd h (by simp)
  · split at h
    · exact absurd h (by simp)
    · split at h
      · exact absurd h (by simp)
      · split at h
        · exact absurd h (by simp)
        · rw [if_neg (by assumption)]
          exact ⟨⟨_, _, rfl⟩, _, rfl⟩

/-- The line numbers of `parseLinesFrom i` are `i, i+1, …`. -/
theorem parseLinesFrom_map_lineNumber (i : Nat) (lss : List (List Char)) :
    (parseLinesFrom i lss).map ParsedLine.lineNumber =
      List.range' i lss.length := by
  induction lss generalizing i with
  | nil => rfl
  | cons cs rest ih =>
    simp [parseLinesFrom, List.range'_succ, classifyLine_lineNumber, ih]

/-- The line numbers of a parsed document are distinct. -/
theorem parseDocument_nodup_lineNumbers (text : String) :
    ((parseDocument text).map ParsedLine.lineNumber).Nodup := by
  unfold parseDocument
  rw [parseLinesFrom_map_lineNumber]
  exact List.nodup_range' _ _

/-- The line numbers of a parsed document are strictly increasing. -/
theorem parseDocument_pairwise_lineNumbers (text : String) :
    List.Pairwise (fun a b => a.lineNumber < b.lineNumber)
      (parseDocument text) := by
  have h := List.pairwise_lt_range' 0 ((splitOnNl text.toList).map stripCR).length 1
  rw [← parseLinesFrom_map_lineNumber 0, List.pairwise_map] at h
  exact h

/-- Every line of a parsed document is a classification of some raw line. -/
theorem parseDocument_mem (text : String) :
    ∀ l ∈ parseDocument text, ∃ i cs, l = classifyLine i cs := by
  unfold parseDocument
  generalize (splitOnNl text.toList).map stripCR = lss
  generalize hstart : 0 = start
  clear hstart
  induction lss generalizing start with
  | nil => simp [parseLinesFrom]
  | cons cs rest ih =>
    intro l hl
    rcases hl with _ | hl
    · exact ⟨start, cs, rfl⟩
    · exact ih (start + 1) l (by assumption)

/-- Every `keyValue` line of a parsed document has a truthy key and a
recorded key range. -/
theorem parseDocument_keyValue_facts (text : String) :
    ∀ l ∈ parseDocument text, l.type = LineType.keyValue →
      (∃ k, truthyKey l.key = some k) ∧ ∃ r, l.keyRange = some r := by
  intro l hl htype
  obtain ⟨i, cs, rfl⟩ := parseDocument_mem text l hl
  obtain ⟨⟨k, ks, hkey⟩, r, hr⟩ := classifyLine_keyValue i cs htype
  refine ⟨⟨String.mk (k :: ks), ?_⟩, r, hr⟩
  rw [hkey]
  unfold truthyKey
  dsimp only
  rw [if_neg]
  intro hcontra
  have h2 := congrArg String.data hcontra
  simp at h2

/-- Looking up in the occurrence map after recording one occurrence of `k`:
the `k` entry gains `n` at its end, every other entry is untouched. -/
theorem lookup_addOccurrence (acc : List (String × List Nat)) (k : String)
    (n : Nat) (k2 : String) :
    (addOccurrence acc k n).lookup k2 =
      if k2 = k then some ((acc.lookup k).getD [] ++ [n])
      else acc.lookup k2 := by
  induction acc with
  | nil =>
    by_cases h : k2 = k
    · simp [addOccurrence, List.lookup_cons, h]
    · have hb : (k2 == k) = false := beq_eq_false_iff_ne.mpr h
      simp [addOccurrence, List.lookup_cons, h, hb]
  | cons e rest ih =>
    obtain ⟨k1, ns⟩ := e
    unfold addOccurrence
    by_cases h1 : k1 = k
    · subst h1
      rw [if_pos rfl]
      by_cases h2 : k2 = k1
      · simp [List.lookup_cons, h2]
      · have hb : (k2 == k1) = false := beq_eq_false_iff_ne.mpr h2
        simp [List.lookup_cons, h2, hb]
    · rw [if_neg h1]
      by_cases h2 : k2 = k1
      · subst h2
        simp [List.lookup_cons, h1]
      · have hb : (k2 == k1) = false := beq_eq_false_iff_ne.mpr h2
        have hb2 : (k == k1) = false :=
          beq_eq_false_iff_ne.mpr (fun hh => h1 hh.symm)
        simp [List.lookup_cons, hb, hb2, ih]

/-- Unfolding `occList` over a cons. -/
theorem occList_cons (l : ParsedLine) (rest : List ParsedLine) (k : String) :
    occList (l :: rest) k =
      if l.type = LineType.keyValue ∧ truthyKey l.key = some k then
        l.lineNumber :: occList rest k
      else occList rest k := by
  unfold occList
  rw [List.filter_cons]
  by_cases h : l.type = LineType.keyValue ∧ truthyKey l.key = some k
  · simp [h]
  · simp [h]

/-- `occStep` on a recorded line. -/
theorem occStep_keyValue (acc : List (String × List Nat)) (l : ParsedLine)
    (k0 : String) (ht : l.type = LineType.keyValue)
    (hk : truthyKey l.key = some k0) :
    occStep acc l = addOccurrence acc k0 l.lineNumber := by
  simp only [occStep, ht, hk]

/-- `occStep` on a skipped line. -/
theorem occStep_skip (acc : List (String × List Nat)) (l : ParsedLine)
    (h : l.type ≠ LineType.keyValue ∨ truthyKey l.key = none) :
    occStep acc l = acc := by
  unfold occStep
  rcases h with h | h
  · cases ht : l.type <;> simp_all
  · cases ht : l.type <;> simp_all

/-- The occurrence fold appends each key's occurrences, in order, to
whatever the accumulator already holds for that key. -/
theorem foldl_occStep_lookup (lines : List ParsedLine) (k : String) :
    ∀ acc : List (String × List Nat),
      (((lines.foldl occStep acc).lookup k).getD [] =
        (acc.lookup k).getD [] ++ occList lines k) ∧
      (((lines.foldl occStep acc).lookup k).isSome =
        ((acc.lookup k).isSome || !(occList lines k).isEmpty)) := by
  induction lines with
  | nil =>
    intro acc
    constructor
    · simp [occList]
    · simp [occList]
  | cons l rest ih =>
    intro acc
    rw [List.foldl_cons, occList_cons]
    by_cases hkv : l.type = LineType.keyValue ∧ ∃ k0, truthyKey l.key = some k0
    · obtain ⟨ht, k0, hk⟩ := hkv
      rw [occStep_keyValue acc l k0 ht hk]
      by_cases hk0 : k0 = k
      · subst hk0
        rw [if_pos ⟨ht, hk⟩]
        constructor
        · rw [(ih _).1, lookup_addOccurrence, if_pos rfl]
          simp
        · rw [(ih _).2, lookup_addOccurrence, if_pos rfl]
          simp
      · have hne : ¬(l.type = LineType.keyValue ∧ truthyKey l.key = some k) := by
          rintro ⟨-, hk2⟩
          rw [hk] at hk2
          exact hk0 (Option.some_injective _ hk2)
        rw [if_neg hne]
        constructor
        · rw [(ih _).1, lookup_addOccurrence,
            if_neg (fun hh => hk0 hh.symm)]
        · rw [(ih _).2, lookup_addOccurrence,
            if_neg (fun hh => hk0 hh.symm)]
    · have hskip : l.type ≠ LineType.keyValue ∨ truthyKey l.key = none := by
        by_cases ht : l.type = LineType.keyValue
        · right
          cases hk : truthyKey l.key with
          | none => rfl
          | some k0 => exact absurd ⟨ht, k0, hk⟩ hkv
        · exact Or.inl ht
      have hne : ¬(l.type = LineType.keyValue ∧ truthyKey l.key = some k) := by
        rintro ⟨ht, hk⟩
        exact hkv ⟨ht, k, hk⟩
      rw [occStep_skip acc l hskip, if_neg hne]
      exact ih acc

/-- A key with occurrences has exactly its occurrence list in the map. -/
theorem keyOccurrences_lookup (lines : List ParsedLine) (k : String)
    (h : occList lines k ≠ []) :
    (keyOccurrences lines).lookup k = some (occList lines k) := by
  have h1 := (foldl_occStep_lookup lines k []).1
  have h2 := (foldl_occStep_lookup lines k []).2
  unfold keyOccurrences
  simp only [List.lookup_nil, Option.getD_none, Option.isSome_none,
    Bool.false_or, List.nil_append] at h1 h2
  cases ho : (lines.foldl occStep []).lookup k with
  | none =>
    rw [ho] at h2
    simp [List.isEmpty_iff, h] at h2
  | some ns =>
    rw [ho] at h1
    simp at h1
    rw [h1]

/-- The keys of the occurrence map after one insertion. -/
theorem addOccurrence_keys (acc : List (String × List Nat)) (k : String)
    (n : Nat) :
    (addOccurrence acc k n).map Prod.fst =
      if k ∈ acc.map Prod.fst then acc.map Prod.fst
      else acc.map Prod.fst ++ [k] := by
  induction acc with
  | nil => simp [addOccurrence]
  | cons e rest ih =>
    obtain ⟨k1, ns⟩ := e
    unfold addOccurrence
    by_cases h1 : k1 = k
    · subst h1
      simp
    · rw [if_neg h1]
      by_cases hmem : k ∈ rest.map Prod.fst
      · simp [ih, hmem, Ne.symm h1]
      · simp [ih, hmem, Ne.symm h1]

/-- Insertion keeps the occurrence-map keys distinct. -/
theorem addOccurrence_keys_nodup (acc : List (String × List Nat)) (k : String)
    (n : Nat) (h : (acc.map Prod.fst).Nodup) :
    ((addOccurrence acc k n).map Prod.fst).Nodup := by
  rw [addOccurrence_keys]
  by_cases hmem : k ∈ acc.map Prod.fst
  · rw [if_pos hmem]
    exact h
  · rw [if_neg hmem]
    simp [List.nodup_append, h, hmem]

/-- The occurrence-map keys are distinct. -/
theorem keyOccurrences_keys_nodup (lines : List ParsedLine) :
    ((keyOccurrences lines).map Prod.fst).Nodup := by
  unfold keyOccurrences
  suffices hgen : ∀ acc : List (String × List Nat), (acc.map Prod.fst).Nodup →
      ((lines.foldl occStep acc).map Prod.fst).Nodup by
    exact hgen [] (by simp)
  induction lines with
  | nil =>
    intro acc hacc
    exact hacc
  | cons l rest ih =>
    intro acc hacc
    rw [List.foldl_cons]
    refine ih (occStep acc l) ?_
    unfold occStep
    split
    · exact addOccurrence_keys_nodup _ _ _ hacc
    · exact hacc

/-- With distinct keys, association-list membership determines lookup. -/
theorem lookup_of_mem_nodup {l : List (String × List Nat)} {k : String}
    {ns : List Nat} (hnd : (l.map Prod.fst).Nodup) (hmem : (k, ns) ∈ l) :
    l.lookup k = some ns := by
  induction l with
  | nil => cases hmem
  | cons e rest ih =>
    obtain ⟨k1, ns1⟩ := e
    rw [List.mem_cons] at hmem
    rcases hmem with hmem | hmem
    · simp_all [List.lookup_cons]
    · have hk1 : k1 ≠ k := by
        intro hh
        subst hh
        have : k1 ∈ rest.map Prod.fst :=
          List.mem_map_of_mem Prod.fst hmem
        simp_all
      rw [List.lookup_cons]
      have hb : (k == k1) = false := beq_eq_false_iff_ne.mpr (Ne.symm hk1)
      rw [hb]
      exact ih (by simp_all) hmem

/-- Inserted occurrence lists are never empty. -/
theorem addOccurrence_values_ne_nil (acc : List (String × List Nat))
    (k : String) (n : Nat) (h : ∀ e ∈ acc, e.2 ≠ []) :
    ∀ e ∈ addOccurrence acc k n, e.2 ≠ [] := by
  induction acc with
  | nil =>
    intro e he
    simp [addOccurrence] at he
    subst he
    simp
  | cons e0 rest ih =>
    obtain ⟨k1, ns⟩ := e0
    intro e he
    unfold addOccurrence at he
    split at he
    · rw [List.mem_cons] at he
      rcases he with he | he
      · subst he
        simp
      · exact h e (List.mem_cons_of_mem _ he)
    · rw [List.mem_cons] at he
      rcases he with he | he
      · subst he
        exact h (k1, ns) (List.mem_cons_self _ _)
      · exact ih (fun e2 he2 => h e2 (List.mem_cons_of_mem _ he2)) e he

/-- Occurrence-map entries always hold at least one line number. -/
theorem keyOccurrences_values_ne_nil (lines : List ParsedLine) :
    ∀ e ∈ keyOccurrences lines, e.2 ≠ [] := by
  unfold keyOccurrences
  suffices hgen : ∀ acc : List (String × List Nat), (∀ e ∈ acc, e.2 ≠ []) →
      ∀ e ∈ lines.foldl occStep acc, e.2 ≠ [] by
    exact hgen [] (by simp)
  induction lines with
  | nil => exact fun acc hacc => hacc
  | cons l rest ih =>
    intro acc hacc
    rw [List.foldl_cons]
    refine ih (occStep acc l) ?_
    unfold occStep
    split
    · exact addOccurrence_values_ne_nil _ _ _ hacc
    · exact hacc

/-- Every occurrence-map entry is the key's occurrence list. -/
theorem keyOccurrences_entry (lines : List ParsedLine) (k : String)
    (ns : List Nat) (hmem : (k, ns) ∈ keyOccurrences lines) :
    ns = occList lines k := by
  have hlk := lookup_of_mem_nodup (keyOccurrences_keys_nodup lines) hmem
  by_cases h : occList lines k = []
  · exfalso
    have h1 := (foldl_occStep_lookup lines k []).1
    unfold keyOccurrences at hlk
    rw [hlk] at h1
    simp [h] at h1
    subst h1
    exact keyOccurrences_values_ne_nil lines _ hmem rfl
  · rw [keyOccurrences_lookup lines k h] at hlk
    exact (Option.some_injective _ hlk).symm

/-- Membership in an occurrence list, spelled out. -/
theorem mem_occList {lines : List ParsedLine} {k : String} {n : Nat} :
    n ∈ occList lines k ↔
      ∃ l ∈ lines, l.lineNumber = n ∧ l.type = LineType.keyValue ∧
        truthyKey l.key = some k := by
  unfold occList
  simp only [List.mem_map, List.mem_filter, decide_eq_true_eq]
  constructor
  · rintro ⟨l, ⟨hl, ht, hk⟩, rfl⟩
    exact ⟨l, hl, rfl, ht, hk⟩
  · rintro ⟨l, hl, rfl, ht, hk⟩
    exact ⟨l, ⟨hl, ht, hk⟩, rfl⟩

/-- With distinct line numbers, a line number lies in at most one key's
occurrence list. -/
theorem occList_disjoint {lines : List ParsedLine} {k k2 : String} {n : Nat}
    (hnd : (lines.map ParsedLine.lineNumber).Nodup)
    (h1 : n ∈ occList lines k) (h2 : n ∈ occList lines k2) : k = k2 := by
  obtain ⟨l1, hl1, he1, ht1, hk1⟩ := mem_occList.mp h1
  obtain ⟨l2, hl2, he2, ht2, hk2⟩ := mem_occList.mp h2
  have : l1 = l2 :=
    List.inj_on_of_nodup_map hnd hl1 hl2 (he1.trans he2.symm)
  subst this
  rw [hk1] at hk2
  exact Option.some_injective _ hk2

/-- Occurrence lists are duplicate-free when line numbers are. -/
theorem occList_nodup {lines : List ParsedLine} (k : String)
    (hnd : (lines.map ParsedLine.lineNumber).Nodup) :
    (occList lines k).Nodup := by
  unfold occList
  exact ((List.filter_sublist lines).map ParsedLine.lineNumber).nodup hnd

/-- With distinct line numbers, `find?` locates a member line by its line
number. -/
theorem find?_lineNumber {lines : List ParsedLine}
    (hnd : (lines.map ParsedLine.lineNumber).Nodup) {l : ParsedLine}
    (hl : l ∈ lines) :
    lines.find? (fun l2 => decide (l2.lineNumber = l.lineNumber)) = some l := by
  induction lines with
  | nil => cases hl
  | cons a rest ih =>
    rw [List.find?_cons]
    by_cases ha : a.lineNumber = l.lineNumber
    · have : a = l := by
        rw [List.mem_cons] at hl
        rcases hl with rfl | hl
        · rfl
        · exfalso
          have hmm : l.lineNumber ∈ rest.map ParsedLine.lineNumber :=
            List.mem_map_of_mem _ hl
          rw [List.map_cons, List.nodup_cons, ha] at hnd
          exact hnd.1 hmm
      rw [decide_eq_true ha, this]
    · rw [decide_eq_false ha]
      rw [List.mem_cons] at hl
      rcases hl with rfl | hl
      · exact absurd rfl ha
      · exact ih (by simp_all) hl

/-- Every duplicate diagnostic for a key group has duplicate kind and sits on
one of the later occurrences. -/
theorem mem_dupDiagsFor {lines : List ParsedLine} {key : String}
    {ns : List Nat} :
    ∀ d ∈ dupDiagsFor lines key ns,
      d.1 = DiagKind.duplicateKey ∧ d.2.line ∈ ns.drop 1 := by
  intro d hd
  cases ns with
  | nil => cases hd
  | cons f rest =>
    unfold dupDiagsFor at hd
    rw [List.mem_filterMap] at hd
    obtain ⟨n, hn, he⟩ := hd
    rcases hf : lines.find? (fun l => decide (l.lineNumber = n)) with - | l
    · rw [hf] at he
      cases he
    · rw [hf] at he
      dsimp only at he
      rcases hr : l.keyRange with - | r
      · rw [hr] at he
        cases he
      · rw [hr] at he
        cases he
        exact ⟨rfl, by simpa using hn⟩

/-- Filtering a filter map by line keeps exactly the unique producing index's
output. -/
theorem filterMap_filter_line {rest : List Nat} {n0 : Nat}
    (e : Nat → Option (DiagKind × Diagnostic))
    (hline : ∀ n d, e n = some d → d.2.line = n)
    (hnd : rest.Nodup) (hmem : n0 ∈ rest) (d0 : DiagKind × Diagnostic)
    (he0 : e n0 = some d0) :
    (rest.filterMap e).filter (fun d => decide (d.2.line = n0)) = [d0] := by
  induction rest with
  | nil => cases hmem
  | cons n rs ih =>
    rw [List.mem_cons] at hmem
    rw [List.filterMap_cons]
    have hnil : n0 ∉ rs →
        (rs.filterMap e).filter (fun d => decide (d.2.line = n0)) = [] := by
      intro hout
      rw [List.filter_eq_nil_iff]
      intro d hd
      rw [List.mem_filterMap] at hd
      obtain ⟨m, hm, hem⟩ := hd
      have := hline m d hem
      simp only [this, decide_eq_true_eq]
      intro hmn
      exact hout (hmn ▸ hm)
    cases he : e n with
    | none =>
      rcases hmem with rfl | hmem
      · rw [he] at he0
        cases he0
      · exact ih (List.Nodup.of_cons hnd) hmem
    | some d =>
      rcases hmem with rfl | hmem
      · rw [he] at he0
        cases he0
        have hl := hline n0 d0 he
        rw [List.nodup_cons] at hnd
        rw [List.filter_cons, hnil hnd.1]
        simp [hl]
      · have hne : d.2.line ≠ n0 := by
          rw [hline n d he]
          rw [List.nodup_cons] at hnd
          intro hq
          exact hnd.1 (hq ▸ hmem)
        rw [List.filter_cons]
        simp only [decide_eq_true_eq, hne, if_false]
        exact ih (by rw [List.nodup_cons] at hnd; exact hnd.2) hmem

/-- Filtering a filter map by a line no index produces yields nothing. -/
theorem filterMap_filter_line_nil {rest : List Nat} {n0 : Nat}
    (e : Nat → Option (DiagKind × Diagnostic))
    (hline : ∀ n d, e n = some d → d.2.line = n)
    (hmem : n0 ∉ rest) :
    (rest.filterMap e).filter (fun d => decide (d.2.line = n0)) = [] := by
  rw [List.filter_eq_nil_iff]
  intro d hd
  rw [List.mem_filterMap] at hd
  obtain ⟨m, hm, hem⟩ := hd
  have := hline m d hem
  simp only [this, decide_eq_true_eq]
  intro hmn
  exact hmem (hmn ▸ hm)

/-- The emitter inside `dupDiagsFor` places its diagnostic on the index it
was given. -/
theorem dupDiags_emit_line (lines : List ParsedLine) (key : String) (f : Nat) :
    ∀ (n : Nat) (d : DiagKind × Diagnostic),
      (match lines.find? (fun l => decide (l.lineNumber = n)) with
       | some line =>
         match line.keyRange with
         | some r =>
           some (DiagKind.duplicateKey,
             (⟨n, r, duplicateMessage key f, Severity.warning⟩ : Diagnostic))
         | none => none
       | none => none) = some d → d.2.line = n := by
  intro n d h
  rcases hf : lines.find? (fun l => decide (l.lineNumber = n)) with - | l
  · rw [hf] at h
    cases h
  · rw [hf] at h
    dsimp only at h
    rcases hr : l.keyRange with - | r
    · rw [hr] at h
      cases h
    · rw [hr] at h
      cases h
      rfl

/-- At a later occurrence with a recorded key range, the key group's
duplicate diagnostics at that line are the one expected diagnostic. -/
theorem diagsAtLine_dupDiagsFor (lines : List ParsedLine) (k : String)
    (f : Nat) (rest : List Nat) (n0 : Nat)
    (hnd : rest.Nodup) (hmem : n0 ∈ rest)
    (hndl : (lines.map ParsedLine.lineNumber).Nodup)
    {l0 : ParsedLine} (hl0 : l0 ∈ lines) (hln : l0.lineNumber = n0)
    {r : Span} (hr : l0.keyRange = some r) :
    diagsAtLine (dupDiagsFor lines k (f :: rest)) n0 =
      [(DiagKind.duplicateKey,
        ⟨n0, r, duplicateMessage k f, Severity.warning⟩)] := by
  unfold diagsAtLine dupDiagsFor
  refine filterMap_filter_line _ (dupDiags_emit_line lines k f) hnd hmem _ ?_
  have hfind := find?_lineNumber hndl hl0
  rw [hln] at hfind
  rw [hfind]
  dsimp only
  rw [hr]

/-- At a line outside the later occurrences, the key group contributes no
duplicate diagnostic. -/
theorem diagsAtLine_dupDiagsFor_nil (lines : List ParsedLine) (k : String)
    (f : Nat) (rest : List Nat) (n0 : Nat) (hmem : n0 ∉ rest) :
    diagsAtLine (dupDiagsFor lines k (f :: rest)) n0 = [] := by
  unfold diagsAtLine dupDiagsFor
  exact filterMap_filter_line_nil _ (dupDiags_emit_line lines k f) hmem

/-- Filters push inside flat maps. -/
theorem filter_flatMap_eq {α β : Type} (p : β → Bool) (f : α → List β)
    (l : List α) :
    (l.flatMap f).filter p = l.flatMap (fun a => (f a).filter p) := by
  induction l with
  | nil => rfl
  | cons x xs ih => simp only [List.flatMap_cons, List.filter_append, ih]

/-- A flat map over an association list with distinct keys collapses to the
looked-up entry when every other entry contributes nothing. -/
theorem flatMap_single_key {β : Type} {entries : List (String × List Nat)}
    {k : String} {ns : List Nat}
    (hnd : (entries.map Prod.fst).Nodup)
    (hlk : entries.lookup k = some ns)
    (F : String × List Nat → List β)
    (hF : ∀ g ∈ entries, g.1 ≠ k → F g = []) :
    entries.flatMap F = F (k, ns) := by
  induction entries with
  | nil => cases hlk
  | cons e rest ih =>
    obtain ⟨k1, ns1⟩ := e
    rw [List.flatMap_cons]
    by_cases h1 : k = k1
    · subst h1
      rw [List.lookup_cons] at hlk
      simp only [beq_self_eq_true] at hlk
      cases hlk
      have hrest : rest.flatMap F = [] := by
        rw [List.flatMap_eq_nil_iff]
        intro g hg
        refine hF g (List.mem_cons_of_mem _ hg) ?_
        rw [List.map_cons, List.nodup_cons] at hnd
        intro hq
        apply hnd.1
        rw [← hq]
        exact List.mem_map.mpr ⟨g, hg, rfl⟩
      rw [hrest, List.append_nil]
    · rw [List.lookup_cons] at hlk
      have hb : (k == k1) = false := beq_eq_false_iff_ne.mpr h1
      rw [hb] at hlk
      rw [hF (k1, ns1) (List.mem_cons_self _ _) (fun hq => h1 hq.symm),
        List.nil_append]
      exact ih (by rw [List.map_cons, List.nodup_cons] at hnd; exact hnd.2)
        hlk (fun g hg hgk => hF g (List.mem_cons_of_mem _ hg) hgk)

/-- The duplicate diagnostics at an occurrence line of `k` all come from the
`k` group: the whole pass reduces there to that group's contribution. -/
theorem dupsAt_reduce (schema : GhosttySchema) (lines : List ParsedLine)
    (k : String) (n0 : Nat)
    (hndl : (lines.map ParsedLine.lineNumber).Nodup)
    (hmem : n0 ∈ occList lines k) :
    diagsAtLine (validateDuplicatesTagged schema lines) n0 =
      (if (occList lines k).length ≤ 1 then []
       else if isRepeatableKey schema k then []
       else dupDiagsFor lines k (occList lines k)).filter
        (fun d => decide (d.2.line = n0)) := by
  have hne : occList lines k ≠ [] := by
    intro hq
    rw [hq] at hmem
    cases hmem
  unfold diagsAtLine validateDuplicatesTagged
  rw [filter_flatMap_eq]
  refine flatMap_single_key (keyOccurrences_keys_nodup lines)
    (keyOccurrences_lookup lines k hne) _ ?_
  intro g hg hgk
  obtain ⟨k2, ns2⟩ := g
  have hns2 : ns2 = occList lines k2 := keyOccurrences_entry lines k2 ns2 hg
  dsimp only at hgk ⊢
  split
  · rfl
  · split
    · rfl
    · rw [List.filter_eq_nil_iff]
      intro d hd
      obtain ⟨-, hdl⟩ := mem_dupDiagsFor d hd
      simp only [decide_eq_true_eq]
      intro hq
      rw [hq, hns2] at hdl
      have hd2 : n0 ∈ occList lines k2 := List.mem_of_mem_drop hdl
      exact hgk (occList_disjoint hndl hd2 hmem)

/-- A repeatable key collects no duplicate diagnostic at any occurrence. -/
theorem dupsAt_repeatable (schema : GhosttySchema) (text : String)
    (k : String) (hrep : isRepeatableKey schema k = true) :
    ∀ n ∈ occList (parseDocument text) k,
      diagsAtLine (validateDuplicatesTagged schema (parseDocument text)) n =
        [] := by
  intro n hn
  rw [dupsAt_reduce schema _ k n (parseDocument_nodup_lineNumbers text) hn]
  by_cases hlen : (occList (parseDocument text) k).length ≤ 1
  · rw [if_pos hlen]
    rfl
  · rw [if_neg hlen, if_pos hrep]
    rfl

/-- A non-repeatable duplicated key collects no duplicate diagnostic at its
first occurrence and exactly the expected one at each later occurrence. -/
theorem dupsAt_nonrepeatable (schema : GhosttySchema) (text : String)
    (k : String) (hrep : isRepeatableKey schema k = false)
    (f : Nat) (rest : List Nat)
    (hocc : occList (parseDocument text) k = f :: rest) :
    diagsAtLine (validateDuplicatesTagged schema (parseDocument text)) f =
      [] ∧
    ∀ n ∈ rest, ∃ l ∈ parseDocument text, l.lineNumber = n ∧
      ∃ r, l.keyRange = some r ∧
        diagsAtLine (validateDuplicatesTagged schema (parseDocument text)) n =
          [(DiagKind.duplicateKey,
            ⟨n, r, duplicateMessage k f, Severity.warning⟩)] := by
  have hndl := parseDocument_nodup_lineNumbers text
  have hoccnd : (f :: rest).Nodup := by
    rw [← hocc]
    exact occList_nodup k hndl
  rw [List.nodup_cons] at hoccnd
  constructor
  · have hf : f ∈ occList (parseDocument text) k := by
      rw [hocc]
      exact List.mem_cons_self _ _
    rw [dupsAt_reduce schema _ k f hndl hf]
    by_cases hlen : (occList (parseDocument text) k).length ≤ 1
    · rw [if_pos hlen]
      rfl
    · rw [if_neg hlen, hrep]
      rw [if_neg (by simp)]
      rw [hocc]
      exact diagsAtLine_dupDiagsFor_nil (parseDocument text) k f rest f
        hoccnd.1
  · intro n hn
    have hnm : n ∈ occList (parseDocument text) k := by
      rw [hocc]
      exact List.mem_cons_of_mem _ hn
    obtain ⟨l0, hl0, hln, hty, hky⟩ := mem_occList.mp hnm
    obtain ⟨-, r, hr⟩ := parseDocument_keyValue_facts text l0 hl0 hty
    refine ⟨l0, hl0, hln, r, hr, ?_⟩
    rw [dupsAt_reduce schema _ k n hndl hnm]
    have hpos : 0 < rest.length :=
      List.length_pos.mpr (List.ne_nil_of_mem hn)
    have hlen : ¬((occList (parseDocument text) k).length ≤ 1) := by
      rw [hocc]
      simp only [List.length_cons]
      omega
    rw [if_neg hlen, hrep]
    rw [if_neg (by simp)]
    rw [hocc]
    exact diagsAtLine_dupDiagsFor (parseDocument text) k f rest n hoccnd.2
      hn hndl hl0 hln hr

/-- C1: in the duplicate pass over a parsed document, a repeatable key gets
no duplicate diagnostic at any of its occurrences; a non-repeatable key with
occurrences `f :: rest` gets none at the first occurrence and exactly one
warning diagnostic at each later occurrence, placed at that occurrence's key
span, with the message naming the key and citing the 1-based line of the
first occurrence. -/
theorem duplicate_key_diagnostics (schema : GhosttySchema) (text : String)
    (k : String) :
    (isRepeatableKey schema k = true →
      ∀ n ∈ occList (parseDocument text) k,
        diagsAtLine (validateDuplicatesTagged schema (parseDocument text)) n =
          []) ∧
    (isRepeatableKey schema k = false →
      ∀ f rest, occList (parseDocument text) k = f :: rest →
        diagsAtLine (validateDuplicatesTagged schema (parseDocument text)) f =
          [] ∧
        ∀ n ∈ rest, ∃ l ∈ parseDocument text, l.lineNumber = n ∧
          ∃ r, l.keyRange = some r ∧
            diagsAtLine (validateDuplicatesTagged schema (parseDocument text))
                n =
              [(DiagKind.duplicateKey,
                ⟨n, r, duplicateMessage k f, Severity.warning⟩)]) :=
  ⟨fun hrep => dupsAt_repeatable schema text k hrep,
   fun hrep f rest hocc => dupsAt_nonrepeatable schema text k hrep f rest hocc⟩

/-- Witness for `duplicate_key_diagnostics`: key `a` on lines 0 and 1 of
`a=1\na=2` with the empty (fallback) schema. -/
theorem duplicate_key_diagnostics_witness :
    diagsAtLine
        (validateDuplicatesTagged fallbackSchema (parseDocument "a=1\na=2"))
        0 = [] ∧
    ∃ l ∈ parseDocument "a=1\na=2", l.lineNumber = 1 ∧
      ∃ r, l.keyRange = some r ∧
        diagsAtLine
            (validateDuplicatesTagged fallbackSchema
              (parseDocument "a=1\na=2")) 1 =
          [(DiagKind.duplicateKey,
            ⟨1, r, duplicateMessage "a" 0, Severity.warning⟩)] := by
  have h := (duplicate_key_diagnostics fallbackSchema "a=1\na=2" "a").2
    (by decide) 0 [1] (by decide)
  exact ⟨h.1, h.2 1 (by decide)⟩

/-- Every diagnostic `validateLine` emits sits on that line's number. -/
theorem validateLineTagged_mem_line (schema : GhosttySchema) (cfg : Config)
    (v : Validator) (l : ParsedLine) :
    ∀ d ∈ validateLineTagged schema cfg v l, d.2.line = l.lineNumber := by
  intro d hd
  by_cases hinv : l.type = LineType.invalid
  · rw [validateLineTagged_invalid _ _ _ _ hinv] at hd
    rw [List.mem_singleton] at hd
    rw [hd]
  · by_cases hkv : l.type = LineType.keyValue
    · cases hk : truthyKey l.key with
      | none =>
        rw [validateLineTagged_skip _ _ _ _ hinv (Or.inr hk)] at hd
        cases hd
      | some k =>
        cases hopt : schema.options.lookup k with
        | none =>
          rw [validateLineTagged_unknown _ _ _ _ _ hkv hk hopt] at hd
          rw [List.mem_singleton] at hd
          rw [hd]
        | some opt =>
          rw [validateLineTagged_known _ _ _ _ _ _ hkv hk hopt] at hd
          rw [List.mem_append] at hd
          rcases hd with hd | hd
          · rw [List.mem_append] at hd
            rcases hd with hd | hd
            · exact (mem_deprecatedDiags_kind _ _ _ d hd).2
            · exact (mem_platformDiags_kind _ _ _ _ d hd).2
          · exact (mem_valueDiags_kind _ _ _ _ d hd).2
    · rw [validateLineTagged_skip _ _ _ _ hinv (Or.inl hkv)] at hd
      cases hd

/-- Every diagnostic of the duplicate pass has duplicate kind. -/
theorem mem_validateDuplicatesTagged_kind (schema : GhosttySchema)
    (lines : List ParsedLine) :
    ∀ d ∈ validateDuplicatesTagged schema lines,
      d.1 = DiagKind.duplicateKey := by
  intro d hd
  unfold validateDuplicatesTagged at hd
  rw [List.mem_flatMap] at hd
  obtain ⟨g, hg, hdg⟩ := hd
  split at hdg
  · cases hdg
  · split at hdg
    · cases hdg
    · exact (mem_dupDiagsFor d hdg).1

/-- With distinct line numbers, the per-line diagnostics at a member line's
number are exactly that line's diagnostics. -/
theorem diagsAtLine_flatMap_validateLine (schema : GhosttySchema)
    (cfg : Config) (v : Validator) (lines : List ParsedLine)
    (hnd : (lines.map ParsedLine.lineNumber).Nodup) (l0 : ParsedLine)
    (hl0 : l0 ∈ lines) :
    diagsAtLine (lines.flatMap (validateLineTagged schema cfg v))
        l0.lineNumber =
      validateLineTagged schema cfg v l0 := by
  induction lines with
  | nil => cases hl0
  | cons a rest ih =>
    rw [List.flatMap_cons]
    unfold diagsAtLine
    rw [List.filter_append]
    rw [List.mem_cons] at hl0
    rw [List.map_cons, List.nodup_cons] at hnd
    rcases hl0 with rfl | hl0
    · have h1 : (validateLineTagged schema cfg v l0).filter
          (fun d => decide (d.2.line = l0.lineNumber)) =
          validateLineTagged schema cfg v l0 := by
        rw [List.filter_eq_self]
        intro d hd
        simp [validateLineTagged_mem_line schema cfg v l0 d hd]
      have h2 : (rest.flatMap (validateLineTagged schema cfg v)).filter
          (fun d => decide (d.2.line = l0.lineNumber)) = [] := by
        rw [List.filter_eq_nil_iff]
        intro d hd
        rw [List.mem_flatMap] at hd
        obtain ⟨b, hb, hdb⟩ := hd
        rw [validateLineTagged_mem_line schema cfg v b d hdb]
        simp only [decide_eq_true_eq]
        intro hq
        apply hnd.1
        rw [← hq]
        exact List.mem_map_of_mem _ hb
      rw [h1, h2, List.append_nil]
    · have hne : a.lineNumber ≠ l0.lineNumber := by
        intro hq
        apply hnd.1
        rw [hq]
        exact List.mem_map_of_mem _ hl0
      have h1 : (validateLineTagged schema cfg v a).filter
          (fun d => decide (d.2.line = l0.lineNumber)) = [] := by
        rw [List.filter_eq_nil_iff]
        intro d hd
        rw [validateLineTagged_mem_line schema cfg v a d hd]
        simp only [decide_eq_true_eq]
        exact hne
      rw [h1, List.nil_append]
      exact ih hnd.2 hl0

/-- Line filters distribute over concatenation. -/
theorem diagsAtLine_append (a b : List (DiagKind × Diagnostic)) (n : Nat) :
    diagsAtLine (a ++ b) n = diagsAtLine a n ++ diagsAtLine b n :=
  List.filter_append a b

/-- C10: the duplicate pass ignores the schema lookup, so a key absent from
the schema (and not repeatable) occurring on lines `f :: rest` yields an
unknown-key diagnostic on every occurrence and additionally one duplicate
diagnostic on each occurrence after the first (none on the first). -/
theorem unknown_duplicate_both_diagnostics (schema : GhosttySchema)
    (cfg : Config) (v : Validator) (text : String) (k : String)
    (henable : cfg.enableDiagnostics = true)
    (hopt : schema.options.lookup k = none)
    (hrep : schema.repeatableKeys.contains k = false)
    (f : Nat) (rest : List Nat)
    (hocc : occList (parseDocument text) k = f :: rest) :
    (∀ n ∈ f :: rest, ∃ l ∈ parseDocument text, l.lineNumber = n ∧
      diagsOfKind
          (diagsAtLine (validateDocumentTagged schema cfg v text) n)
          DiagKind.unknownKey =
        [(DiagKind.unknownKey,
          ⟨n, keySpanOf l, unknownKeyMessage k,
           getDiagnosticSeverity cfg⟩)]) ∧
    (∀ n ∈ rest, ∃ l ∈ parseDocument text, l.lineNumber = n ∧
      ∃ r, l.keyRange = some r ∧
        diagsOfKind
            (diagsAtLine (validateDocumentTagged schema cfg v text) n)
            DiagKind.duplicateKey =
          [(DiagKind.duplicateKey,
            ⟨n, r, duplicateMessage k f, Severity.warning⟩)]) ∧
    diagsOfKind (diagsAtLine (validateDocumentTagged schema cfg v text) f)
        DiagKind.duplicateKey = [] := by
  have hndl := parseDocument_nodup_lineNumbers text
  have hrepk : isRepeatableKey schema k = false := by
    have hrep2 : k ∉ schema.repeatableKeys := by simpa using hrep
    simp [isRepeatableKey, hopt, hrep2]
  have hdoc : validateDocumentTagged schema cfg v text =
      (parseDocument text).flatMap (validateLineTagged schema cfg v) ++
        validateDuplicatesTagged schema (parseDocument text) := by
    unfold validateDocumentTagged
    rw [if_pos henable]
  have hdups := dupsAt_nonrepeatable schema text k hrepk f rest hocc
  have hdupkind : ∀ n, ∀ d ∈ diagsAtLine
      (validateDuplicatesTagged schema (parseDocument text)) n,
      d.1 = DiagKind.duplicateKey := by
    intro n d hd
    unfold diagsAtLine at hd
    exact mem_validateDuplicatesTagged_kind schema (parseDocument text) d
      (List.mem_filter.mp hd).1
  have hper : ∀ n ∈ occList (parseDocument text) k,
      ∃ l ∈ parseDocument text, l.lineNumber = n ∧
        diagsAtLine
            ((parseDocument text).flatMap (validateLineTagged schema cfg v))
            n =
          [(DiagKind.unknownKey,
            ⟨n, keySpanOf l, unknownKeyMessage k,
             getDiagnosticSeverity cfg⟩)] := by
    intro n hnm
    obtain ⟨l0, hl0, hln, hty, hky⟩ := mem_occList.mp hnm
    refine ⟨l0, hl0, hln, ?_⟩
    rw [← hln, diagsAtLine_flatMap_validateLine schema cfg v _ hndl l0 hl0,
      validateLineTagged_unknown schema cfg v l0 k hty hky hopt]
  refine ⟨?_, ?_, ?_⟩
  · intro n hn
    have hnm : n ∈ occList (parseDocument text) k := by
      rw [hocc]
      exact hn
    obtain ⟨l0, hl0, hln, hperl⟩ := hper n hnm
    refine ⟨l0, hl0, hln, ?_⟩
    rw [hdoc, diagsAtLine_append, hperl, diagsOfKind_append,
      show diagsOfKind (diagsAtLine
          (validateDuplicatesTagged schema (parseDocument text)) n)
          DiagKind.unknownKey = [] from diagsOfKind_eq_nil
        (fun d hd => by rw [hdupkind n d hd]; simp),
      List.append_nil]
    rfl
  · intro n hn
    have hnm : n ∈ occList (parseDocument text) k := by
      rw [hocc]
      exact List.mem_cons_of_mem _ hn
    obtain ⟨l0, hl0, hln, hperl⟩ := hper n hnm
    obtain ⟨l1, hl1, hln1, r, hr, hdupl⟩ := hdups.2 n hn
    refine ⟨l1, hl1, hln1, r, hr, ?_⟩
    rw [hdoc, diagsAtLine_append, hperl, hdupl, diagsOfKind_append,
      show diagsOfKind [(DiagKind.unknownKey,
          (⟨n, keySpanOf l0, unknownKeyMessage k,
            getDiagnosticSeverity cfg⟩ : Diagnostic))]
          DiagKind.duplicateKey = [] from by simp [diagsOfKind],
      List.nil_append]
    rfl
  · have hf : f ∈ occList (parseDocument text) k := by
      rw [hocc]
      exact List.mem_cons_self _ _
    obtain ⟨l0, hl0, hln, hperl⟩ := hper f hf
    rw [hdoc, diagsAtLine_append, hperl, hdups.1, List.append_nil]
    simp [diagsOfKind]

/-- Witness for `unknown_duplicate_both_diagnostics`: unknown key `a` on
lines 0 and 1 of `a=1\na=2`. -/
theorem unknown_duplicate_both_diagnostics_witness :
    diagsOfKind
        (diagsAtLine
          (validateDocumentTagged fallbackSchema testCfg testValidatorOk
            "a=1\na=2") 0)
        DiagKind.duplicateKey = [] ∧
    ∃ l ∈ parseDocument "a=1\na=2", l.lineNumber = 1 ∧
      ∃ r, l.keyRange = some r ∧
        diagsOfKind
            (diagsAtLine
              (validateDocumentTagged fallbackSchema testCfg testValidatorOk
                "a=1\na=2") 1)
            DiagKind.duplicateKey =
          [(DiagKind.duplicateKey,
            ⟨1, r, duplicateMessage "a" 0, Severity.warning⟩)] := by
  have h := unknown_duplicate_both_diagnostics fallbackSchema testCfg
    testValidatorOk "a=1\na=2" "a" rfl rfl rfl 0 [1] (by decide)
  exact ⟨h.2.2, h.2.1 1 (by decide)⟩

/-- No per-line check emits a duplicate-kind diagnostic. -/
theorem validateLineTagged_not_dup (schema : GhosttySchema) (cfg : Config)
    (v : Validator) (l : ParsedLine) :
    ∀ d ∈ validateLineTagged schema cfg v l,
      d.1 ≠ DiagKind.duplicateKey := by
  intro d hd
  by_cases hinv : l.type = LineType.invalid
  · rw [validateLineTagged_invalid _ _ _ _ hinv] at hd
    rw [List.mem_singleton] at hd
    rw [hd]
    simp
  · by_cases hkv : l.type = LineType.keyValue
    · cases hk : truthyKey l.key with
      | none =>
        rw [validateLineTagged_skip _ _ _ _ hinv (Or.inr hk)] at hd
        cases hd
      | some k =>
        cases hopt : schema.options.lookup k with
        | none =>
          rw [validateLineTagged_unknown _ _ _ _ _ hkv hk hopt] at hd
          rw [List.mem_singleton] at hd
          rw [hd]
          simp
        | some opt =>
          rw [validateLineTagged_known _ _ _ _ _ _ hkv hk hopt] at hd
          rw [List.mem_append] at hd
          rcases hd with hd | hd
          · rw [List.mem_append] at hd
            rcases hd with hd | hd
            · rw [(mem_deprecatedDiags_kind _ _ _ d hd).1]
              simp
            · rw [(mem_platformDiags_kind _ _ _ _ d hd).1]
              simp
          · rw [(mem_valueDiags_kind _ _ _ _ d hd).1]
            simp
    · rw [validateLineTagged_skip _ _ _ _ hinv (Or.inl hkv)] at hd
      cases hd

/-- The per-line diagnostics of lines with increasing line numbers are
ordered by line. -/
theorem pairwise_flatMap_line (schema : GhosttySchema) (cfg : Config)
    (v : Validator) (lines : List ParsedLine)
    (hp : List.Pairwise (fun a b => a.lineNumber < b.lineNumber) lines) :
    List.Pairwise (fun a b => a.2.line ≤ b.2.line)
      (lines.flatMap (validateLineTagged schema cfg v)) := by
  induction lines with
  | nil => simp
  | cons a rest ih =>
    rw [List.flatMap_cons, List.pairwise_append]
    rw [List.pairwise_cons] at hp
    refine ⟨?_, ih hp.2, ?_⟩
    · refine List.pairwise_of_forall_mem_list ?_
      intro d hd d2 hd2
      rw [validateLineTagged_mem_line schema cfg v a d hd,
        validateLineTagged_mem_line schema cfg v a d2 hd2]
    · intro d hd d2 hd2
      rw [List.mem_flatMap] at hd2
      obtain ⟨b, hb, hdb⟩ := hd2
      rw [validateLineTagged_mem_line schema cfg v a d hd,
        validateLineTagged_mem_line schema cfg v b d2 hdb]
      exact Nat.le_of_lt (hp.1 b hb)

/-- C8 counterexample: on `a=1\na=2\n=` (empty schema) the diagnostic
sequence has line numbers `0, 1, 2, 1` — the duplicate diagnostic for line 1
comes after the invalid-line diagnostic for line 2, so the sequence is not
ordered by line number. -/
theorem validateDocument_not_line_ordered :
    ¬ List.Pairwise (fun a b => a.line ≤ b.line)
        (validateDocument fallbackSchema testCfg testValidatorOk
          "a=1\na=2\n=") := by
  decide

/-- C8 (amended): the sequence is the per-line diagnostics, ordered by line
number, followed by all duplicate-key diagnostics. -/
theorem validateDocument_perline_order_then_duplicates
    (schema : GhosttySchema) (cfg : Config) (v : Validator) (text : String)
    (henable : cfg.enableDiagnostics = true) :
    ∃ A B, validateDocumentTagged schema cfg v text = A ++ B ∧
      List.Pairwise (fun a b => a.2.line ≤ b.2.line) A ∧
      (∀ d ∈ A, d.1 ≠ DiagKind.duplicateKey) ∧
      (∀ d ∈ B, d.1 = DiagKind.duplicateKey) := by
  refine ⟨(parseDocument text).flatMap (validateLineTagged schema cfg v),
    validateDuplicatesTagged schema (parseDocument text), ?_, ?_, ?_, ?_⟩
  · unfold validateDocumentTagged
    rw [if_pos henable]
  · exact pairwise_flatMap_line schema cfg v (parseDocument text)
      (parseDocument_pairwise_lineNumbers text)
  · intro d hd
    rw [List.mem_flatMap] at hd
    obtain ⟨b, hb, hdb⟩ := hd
    exact validateLineTagged_not_dup schema cfg v b d hdb
  · exact mem_validateDuplicatesTagged_kind schema (parseDocument text)

/-- Witness for `validateDocument_perline_order_then_duplicates` at the
concrete counterexample document. -/
theorem validateDocument_perline_order_then_duplicates_witness :
    ∃ A B, validateDocumentTagged fallbackSchema testCfg testValidatorOk
        "a=1\na=2\n=" = A ++ B ∧
      List.Pairwise (fun a b => a.2.line ≤ b.2.line) A ∧
      (∀ d ∈ A, d.1 ≠ DiagKind.duplicateKey) ∧
      (∀ d ∈ B, d.1 = DiagKind.duplicateKey) :=
  validateDocument_perline_order_then_duplicates fallbackSchema testCfg
    testValidatorOk "a=1\na=2\n=" rfl
